import Mathlib

/-!
Shallow embedding of the document segmenter of `poc/backend/parsers.py`:
the line classifier `get_line_type`, the section extractor
`get_section_properties`, the stop-tag table `stop_tags`, and the
aggregator `WikiSectionParser.parse` / `parse_many`.

Conventions of the embedding:
* Python strings are Lean `String` (a list of unicode scalar chars).
* Python whitespace (for `str.strip()`, regex `\s`) is modelled by the
  ASCII whitespace set `{space, tab, newline, carriage return, vertical
  tab, form feed}`.
* The regex character class `\w` (used in the section-number token) is
  modelled as ASCII alphanumerics, the underscore and the Hebrew letter
  block U+05D0..U+05EA; the documents of interest use only these.
* Regexes are hand-translated to total functions on `List Char`; the
  backtracking semantics of each pattern of the source was worked out by
  hand and is recorded next to each definition.
* Python exceptions become the `PError` sum type; fallible operations
  return `Except PError`.
-/

namespace LawParse

/-- Python whitespace test (`str.strip`, regex `\s`), ASCII fragment. -/
def isWS (c : Char) : Bool :=
  c == ' ' || c == '\t' || c == '\n' || c == '\r' || c == '\x0b' || c == '\x0c'

/-- `str.strip()` on a list of chars: drop whitespace from both ends. -/
def pyStripList (cs : List Char) : List Char :=
  ((cs.dropWhile isWS).reverse.dropWhile isWS).reverse

/-- `str.strip()` on a `String`. -/
def pyStrip (s : String) : String := ⟨pyStripList s.data⟩

/-- The literal char set of `strip(' =(){}\\')` in the source
(`line.strip(' =()\{\}')`: Python keeps the backslashes as characters). -/
def stripSetChars : List Char := [' ', '=', '(', ')', '\\', '{', '}']

/-- `str.strip(chars)` on a list of chars. -/
def pyStripCharsList (S : List Char) (cs : List Char) : List Char :=
  ((cs.dropWhile (S.contains ·)).reverse.dropWhile (S.contains ·)).reverse

/-- `line.strip(' =(){}\\')` applied to a whole heading line. -/
def stripHeading (s : String) : String := ⟨pyStripCharsList stripSetChars s.data⟩

/-- The `LineType` enum of the source. -/
inductive LineType where
  | ADDENDUM
  | PART
  | CHAPTER
  | SIGN
  | SECTION
  | REGULAR
  | LAW_NAME
  | METADATA
deriving DecidableEq, Repr

/-- The `.value` string of each `LineType` member. -/
def LineType.val : LineType → String
  | .ADDENDUM => "תוספת"
  | .PART => "חלק"
  | .CHAPTER => "פרק"
  | .SIGN => "סימן"
  | .SECTION => "סעיף"
  | .REGULAR => "רגיל"
  | .LAW_NAME => "שם החוק"
  | .METADATA => "metadata"

/-- The `stop_tags` dict of the source, as a function.  `REGULAR` and
`LAW_NAME` have no entry in the source dict and are never looked up; they
map to `[]` here. -/
def stop_tags : LineType → List LineType
  | .ADDENDUM => [.ADDENDUM, .PART, .METADATA]
  | .PART => [.PART, .ADDENDUM, .METADATA]
  | .CHAPTER => [.CHAPTER, .PART, .ADDENDUM, .METADATA]
  | .SIGN => [.SIGN, .CHAPTER, .PART, .ADDENDUM, .METADATA]
  | .SECTION => [.SECTION, .SIGN, .CHAPTER, .PART, .ADDENDUM, .METADATA]
  | .METADATA => [.SECTION, .SIGN, .CHAPTER, .PART, .ADDENDUM]
  | _ => []

/-- Contiguous-substring test (Python `needle in hay`). -/
def hasSub (needle : List Char) : List Char → Bool
  | [] => needle.isEmpty
  | c :: t => needle.isPrefixOf (c :: t) || hasSub needle t

/-- Group 2 of the heading regex `^(=+)\s*(.+?)\s*(=+)?$` under Python
backtracking semantics, worked out by hand:
* no match unless the line starts with `=` and has at least two chars;
* if the line is all `=`: group 2 is a single `=`;
* otherwise let `rest` be the line after its leading `=`-run;
  * if `rest` is all whitespace, group 2 is its last char;
  * otherwise let `T` be `rest` after its leading whitespace run, and
    `T2` be `T` minus its maximal trailing `whitespace-run ++ =-run`
    suffix; group 2 is `T2`, or `T`'s first char when `T2` is empty. -/
def headingGroup2 (cs : List Char) : Option (List Char) :=
  match cs with
  | [] => none
  | c0 :: _ =>
    if c0 = '=' then
      let rest := cs.dropWhile (· == '=')
      if rest.isEmpty then
        if 2 ≤ cs.length then some ['='] else none
      else
        let T := rest.dropWhile isWS
        if T.isEmpty then
          match rest.reverse with
          | c :: _ => some [c]
          | [] => none
        else
          let T1 := (T.reverse.dropWhile (· == '=')).reverse
          let T2 := (T1.reverse.dropWhile isWS).reverse
          if T2.isEmpty then some (T.take 1) else some T2
    else none

/-- The heading keyword priority list of the source. -/
def headingKeywords : List LineType := [.ADDENDUM, .PART, .CHAPTER, .SIGN]

/-- First heading keyword contained in the given (stripped) title. -/
def firstKeyword (title : List Char) : Option LineType :=
  headingKeywords.find? (fun t => hasSub t.val.data title)

/-- The metadata tag markers checked by `line.strip().startswith(...)`. -/
def metadataTags : List String :=
  ["<שם>", "<מקור>", "<מבוא>", "<חתימות>", "<פרסום>", "<שם קודם>", "<מאגר"]

/-- The metadata test of `get_line_type`. -/
def isMetadataLine (line : String) : Bool :=
  metadataTags.any (fun t => t.data.isPrefixOf (pyStripList line.data))

/-- Model of the regex `\w` class (ASCII fragment plus Hebrew letters). -/
def isWordChar (c : Char) : Bool :=
  c.isAlphanum || c == '_' || (0x05d0 ≤ c.toNat && c.toNat ≤ 0x05ea)

/-- A char of the section-number class `[\d\w־\-\.]`. -/
def isSecChar (c : Char) : Bool :=
  isWordChar c || c == '־' || c == '-' || c == '.'

/-- Index of the last `.` in a char run, if any. -/
def lastDotIdx (run : List Char) : Option Nat :=
  match run.reverse.findIdx? (· == '.') with
  | some k => some (run.length - 1 - k)
  | none => none

/-- The section regex `^\s*@\s*([\d\w־\-\.]+)\.\s*(.*)$` under Python
backtracking semantics: after `@` and whitespace, take the maximal run of
class chars; the greedy group 1 backtracks so that the literal `.` lands
on the last `.` of the run, which must leave a nonempty group 1; group 2
is the remainder minus its leading whitespace. -/
def sectionMatchCore : List Char → Option (List Char × List Char)
  | [] => none
  | c0 :: t2 =>
    if c0 = '@' then
      let t3 := t2.dropWhile isWS
      let run := t3.takeWhile isSecChar
      match lastDotIdx run with
      | some j =>
        if 1 ≤ j then some (run.take j, (t3.drop (j + 1)).dropWhile isWS)
        else none
      | none => none
    else none

def sectionMatch (cs : List Char) : Option (List Char × List Char) :=
  sectionMatchCore (cs.dropWhile isWS)

/-- `get_line_type` of the source: empty check, heading pattern with
keyword containment (falling through when no keyword matches), metadata
tag prefix, section pattern, default `REGULAR`. -/
def get_line_type (line : String) : LineType :=
  if pyStripList line.data = [] then .REGULAR
  else
    let fallback : LineType :=
      if isMetadataLine line then .METADATA
      else if (sectionMatch line.data).isSome then .SECTION
      else .REGULAR
    match headingGroup2 line.data with
    | some g2 =>
      match firstKeyword (pyStripCharsList stripSetChars g2) with
      | some t => t
      | none => fallback
    | none => fallback

/-- Python exceptions raised by the parser module. `batchFailure` keeps
the bounded sample of per-document `(index, message)` failures that the
source interpolates into the `ParserError` message. -/
inductive PError where
  | valueError (msg : String)
  | sectionParsing (msg : String)
  | invalidDocument (msg : String)
  | parserError (msg : String)
  | batchFailure (sample : List (Nat × String))
deriving DecidableEq, Repr

/-- `str(e)` of an exception: its message. -/
def errMsg : PError → String
  | .valueError m => m
  | .sectionParsing m => m
  | .invalidDocument m => m
  | .parserError m => m
  | .batchFailure _ => "Failed to parse any documents"

/-- `get_section_properties` of the source. -/
def get_section_properties (line : String) : Except PError (String × String) :=
  if pyStripList line.data = [] then .error (.valueError "Line cannot be empty")
  else
    match sectionMatch line.data with
    | none => .error (.valueError ("This is not a valid section line: " ++ line))
    | some (n, t) => .ok (⟨pyStripList n⟩, ⟨pyStripList t⟩)

/-- An output block of `WikiSectionParser.parse` (a Python dict in the
source).  `sec` is the dict key `section` (a Lean keyword). -/
structure Block where
  law_name : Option String
  part : Option String
  chapter : Option String
  sign : Option String
  sec : Option String
  text : String
deriving DecidableEq, Repr

/-- The mutable walk context (`current_part` .. `current_section`). -/
structure Ctx where
  part : Option String
  chapter : Option String
  sign : Option String
  sec : Option String
deriving DecidableEq, Repr

/-- The literal `<שם>` law-name tag. -/
def lawTag : List Char := ['<', 'ש', 'ם', '>']

/-- Tail of the law-name search `re.search(r"<שם>\s*(.+)", doc)` at one
candidate position (the text right after a `<שם>` occurrence): greedy
`\s*` takes the maximal whitespace run whose following char is not a
newline (backtracking down when the tail is all whitespace), and `(.+)`
takes the maximal nonempty run of non-newline chars from there. -/
def lawGroup (t : List Char) : Option (List Char) :=
  let m := (t.takeWhile isWS).length
  if m < t.length then some ((t.drop m).takeWhile (· ≠ '\n'))
  else
    match t.reverse.dropWhile (· == '\n') with
    | c :: _ => some [c]
    | [] => none

/-- `re.search(r"<שם>\s*(.+)", doc)` followed by `.group(1).strip()`:
scan for the leftmost `<שם>` occurrence whose tail admits the rest of
the pattern. -/
def findLawName (cs : List Char) : Option String :=
  match cs with
  | [] => none
  | _ :: rest =>
    if lawTag.isPrefixOf cs then
      match lawGroup (cs.drop 4) with
      | some g => some ⟨pyStripList g⟩
      | none => findLawName rest
    else findLawName rest

/-- `str.splitlines` worker: split on `\n`, `\r\n`, `\r`, `\x0b`,
`\x0c`; a trailing break adds no empty final line.  The Bool flag marks
that the previous char was `\r`, so an immediately following `\n`
belongs to the same `\r\n` break. -/
def splitlinesAux : List Char → List Char → Bool → List (List Char)
  | [], acc, _ => if acc.isEmpty then [] else [acc.reverse]
  | c :: rest, acc, skipNL =>
    if skipNL && c == '\n' then splitlinesAux rest acc false
    else if c == '\r' then acc.reverse :: splitlinesAux rest [] true
    else if c == '\n' || c == '\x0b' || c == '\x0c' then
      acc.reverse :: splitlinesAux rest [] false
    else splitlinesAux rest (c :: acc) false

/-- `document.splitlines()`. -/
def splitlines (s : String) : List String :=
  (splitlinesAux s.data [] false).map (fun l => String.mk l)

/-- One inner accumulation loop of `parse`: starting from the lines
after the block opener, append each line whose type is not in the stop
set to the chunk, and report how many lines were absorbed. -/
def absorb (stop : List LineType) : List String → String → String × Nat
  | [], chunk => (chunk, 0)
  | l :: rest, chunk =>
    if get_line_type l ∈ stop then (chunk, 0)
    else
      let r := absorb stop rest (chunk ++ l)
      (r.1, r.2 + 1)

/-- Pack a block from the current context and chunk. -/
def mkBlock (ln : Option String) (c : Ctx) (chunk : String) : Block :=
  ⟨ln, c.part, c.chapter, c.sign, c.sec, chunk⟩

/-- Append a block to the results unless its text is blank
(`if chunk and chunk.strip()`). -/
def pushBlock (acc : List Block) (b : Block) : List Block :=
  if pyStripList b.text.data = [] then acc else acc ++ [b]

/-- The `while lineIdx < len(lines)` walk of `parse`, with an explicit
fuel counter standing for the number of remaining loop iterations;
`none` marks fuel exhaustion (`walk_fuel_sufficient` proves it cannot
happen from `lines.length + 1`). -/
def walk (ln : Option String) (lines : List String) :
    Nat → Nat → Ctx → List Block → Option (Except PError (List Block))
  | 0, _, _, _ => none
  | fuel + 1, i, ctx, acc =>
    if h : i < lines.length then
      match get_line_type lines[i] with
      | .METADATA =>
        let ctx' : Ctx := ⟨some "metadata", none, none, none⟩
        let r := absorb (stop_tags .METADATA) (lines.drop (i + 1)) lines[i]
        walk ln lines fuel (i + 1 + r.2) ctx' (pushBlock acc (mkBlock ln ctx' r.1))
      | .ADDENDUM =>
        let ctx' : Ctx := ⟨some (stripHeading lines[i]), none, none, none⟩
        let r := absorb (stop_tags .ADDENDUM) (lines.drop (i + 1)) lines[i]
        walk ln lines fuel (i + 1 + r.2) ctx' (pushBlock acc (mkBlock ln ctx' r.1))
      | .PART =>
        let ctx' : Ctx := ⟨some (stripHeading lines[i]), none, none, none⟩
        walk ln lines fuel (i + 1) ctx' (pushBlock acc (mkBlock ln ctx' ""))
      | .CHAPTER =>
        let part' := if ctx.part = some "metadata" then none else ctx.part
        let ctx' : Ctx := ⟨part', some (stripHeading lines[i]), none, none⟩
        walk ln lines fuel (i + 1) ctx' (pushBlock acc (mkBlock ln ctx' ""))
      | .SIGN =>
        let part' := if ctx.part = some "metadata" then none else ctx.part
        let ctx' : Ctx := ⟨part', ctx.chapter, some (stripHeading lines[i]), none⟩
        walk ln lines fuel (i + 1) ctx' (pushBlock acc (mkBlock ln ctx' ""))
      | .SECTION =>
        match get_section_properties lines[i] with
        | .error e =>
          some (.error (.sectionParsing
            ("Failed to parse section at line " ++ toString i ++ ": " ++ errMsg e)))
        | .ok (num, txt) =>
          let part' := if ctx.part = some "metadata" then none else ctx.part
          let ctx' : Ctx := ⟨part', ctx.chapter, ctx.sign, some num⟩
          let r := absorb (stop_tags .SECTION) (lines.drop (i + 1)) txt
          walk ln lines fuel (i + 1 + r.2) ctx' (pushBlock acc (mkBlock ln ctx' r.1))
      | _ =>
        walk ln lines fuel (i + 1) ctx (pushBlock acc (mkBlock ln ctx lines[i]))
    else some (.ok acc)

/-- `WikiSectionParser.parse`. -/
def parse (document : String) : Except PError (List Block) :=
  if pyStripList document.data = [] then .error (.valueError "Document cannot be empty")
  else
    match walk (findLawName document.data) (splitlines document)
        ((splitlines document).length + 1) 0 ⟨none, none, none, none⟩ [] with
    | some (.ok result) =>
      if result.isEmpty then
        .error (.invalidDocument "No valid content blocks found in document")
      else .ok result
    | some (.error e) => .error e
    | none => .error (.parserError "fuel exhausted")

/-- The success/failure loop of `WikiSectionParser.parse_many`,
threading the running document index. -/
def parseManyAux : List String → Nat → List (List Block) × List (Nat × String)
  | [], _ => ([], [])
  | d :: rest, i =>
    let r := parseManyAux rest (i + 1)
    match parse d with
    | .ok res => (res :: r.1, r.2)
    | .error e => (r.1, (i, errMsg e) :: r.2)

/-- `WikiSectionParser.parse_many`. -/
def parse_many (docs : List String) : Except PError (List (List Block)) :=
  if docs.isEmpty then .ok []
  else
    let r := parseManyAux docs 0
    if r.1.isEmpty && !r.2.isEmpty then .error (.batchFailure (r.2.take 3))
    else .ok r.1

/-! ### Basic lemmas about stripping -/

theorem dropWhile_head?_false {α : Type} (p : α → Bool) (l : List α) :
    ∀ a, (l.dropWhile p).head? = some a → p a = false := by
  induction l with
  | nil =>
    intro a h
    rw [List.dropWhile_nil] at h
    exact absurd h (by simp)
  | cons b t ih =>
    intro a h
    rw [List.dropWhile_cons] at h
    by_cases hb : p b
    · exact ih a (by simpa [hb] using h)
    · rw [if_neg hb] at h
      have hba : b = a := by simpa using h
      rw [← hba]
      simpa using hb

theorem dropWhile_dropWhile {α : Type} (p : α → Bool) (l : List α) :
    (l.dropWhile p).dropWhile p = l.dropWhile p := by
  induction l with
  | nil => simp
  | cons b t ih =>
    rw [List.dropWhile_cons]
    by_cases hb : p b
    · simpa [hb] using ih
    · rw [if_neg (by simpa using hb), List.dropWhile_cons, if_neg (by simpa using hb)]

theorem dropWhile_eq_self_of_head? {α : Type} (p : α → Bool) (l : List α)
    (h : ∀ a, l.head? = some a → p a = false) : l.dropWhile p = l := by
  cases l with
  | nil => simp
  | cons b t => rw [List.dropWhile_cons, if_neg (by simp [h b rfl])]

theorem pyStripList_eq_nil_iff (cs : List Char) :
    pyStripList cs = [] ↔ ∀ c ∈ cs, isWS c = true := by
  unfold pyStripList
  constructor
  · intro h c hc
    rw [List.reverse_eq_nil_iff, List.dropWhile_eq_nil_iff] at h
    rw [← List.takeWhile_append_dropWhile (p := isWS) (l := cs)] at hc
    rcases List.mem_append.1 hc with hc1 | hc2
    · exact List.mem_takeWhile_imp hc1
    · exact h c (List.mem_reverse.2 hc2)
  · intro h
    have h1 : cs.dropWhile isWS = [] := List.dropWhile_eq_nil_iff.2 h
    simp [h1]

theorem mem_pyStripList {c : Char} {cs : List Char} (h : c ∈ pyStripList cs) : c ∈ cs := by
  unfold pyStripList at h
  rw [List.mem_reverse] at h
  have h2 := (List.dropWhile_sublist (l := (cs.dropWhile isWS).reverse) isWS).mem h
  rw [List.mem_reverse] at h2
  exact (List.dropWhile_sublist isWS).mem h2

theorem head?_pyStripList_false (cs : List Char) :
    ∀ a, (pyStripList cs).head? = some a → isWS a = false := by
  intro a h
  unfold pyStripList at h
  rw [List.head?_reverse] at h
  -- the last element of `dropWhile isWS ((dropWhile isWS cs).reverse)` is the
  -- last element of `(dropWhile isWS cs).reverse`, i.e. the head of the
  -- front-stripped list, which fails `isWS`
  rcases List.dropWhile_suffix (l := (cs.dropWhile isWS).reverse) isWS with ⟨pre, hpre⟩
  have hne : (((cs.dropWhile isWS).reverse).dropWhile isWS) ≠ [] := by
    intro hnil; rw [hnil] at h; simp at h
  have h2 : ((cs.dropWhile isWS).reverse).getLast? = some a := by
    rw [← hpre, List.getLast?_append_of_ne_nil _ hne]
    exact h
  rw [List.getLast?_reverse] at h2
  exact dropWhile_head?_false isWS cs a h2

theorem pyStripList_idem (cs : List Char) :
    pyStripList (pyStripList cs) = pyStripList cs := by
  have h1 : (pyStripList cs).dropWhile isWS = pyStripList cs :=
    dropWhile_eq_self_of_head? isWS _ (head?_pyStripList_false cs)
  show ((((pyStripList cs).dropWhile isWS).reverse).dropWhile isWS).reverse = pyStripList cs
  rw [h1]
  show (((((cs.dropWhile isWS).reverse).dropWhile isWS).reverse).reverse.dropWhile isWS).reverse
      = pyStripList cs
  rw [List.reverse_reverse, dropWhile_dropWhile]
  rfl

theorem pyStrip_idem (s : String) : pyStrip (pyStrip s) = pyStrip s := by
  unfold pyStrip
  show (⟨pyStripList (pyStripList s.data)⟩ : String) = ⟨pyStripList s.data⟩
  rw [pyStripList_idem]

/-! ### Step equations for the walk -/

theorem walk_done {ln : Option String} {lines : List String} {fuel i : Nat} {ctx : Ctx}
    {acc : List Block} (h : ¬ i < lines.length) :
    walk ln lines (fuel + 1) i ctx acc = some (.ok acc) := by
  simp only [walk, dif_neg h]

theorem walk_regular {ln : Option String} {lines : List String} {fuel i : Nat} {ctx : Ctx}
    {acc : List Block} (h : i < lines.length)
    (ht : get_line_type lines[i] = .REGULAR) :
    walk ln lines (fuel + 1) i ctx acc
      = walk ln lines fuel (i + 1) ctx (pushBlock acc (mkBlock ln ctx lines[i])) := by
  simp only [walk, dif_pos h, ht]

theorem walk_metadata {ln : Option String} {lines : List String} {fuel i : Nat} {ctx : Ctx}
    {acc : List Block} (h : i < lines.length)
    (ht : get_line_type lines[i] = .METADATA) :
    walk ln lines (fuel + 1) i ctx acc
      = walk ln lines fuel (i + 1 + (absorb (stop_tags .METADATA) (lines.drop (i + 1)) lines[i]).2)
          ⟨some "metadata", none, none, none⟩
          (pushBlock acc (mkBlock ln ⟨some "metadata", none, none, none⟩
            (absorb (stop_tags .METADATA) (lines.drop (i + 1)) lines[i]).1)) := by
  simp only [walk, dif_pos h, ht]

theorem walk_addendum {ln : Option String} {lines : List String} {fuel i : Nat} {ctx : Ctx}
    {acc : List Block} (h : i < lines.length)
    (ht : get_line_type lines[i] = .ADDENDUM) :
    walk ln lines (fuel + 1) i ctx acc
      = walk ln lines fuel (i + 1 + (absorb (stop_tags .ADDENDUM) (lines.drop (i + 1)) lines[i]).2)
          ⟨some (stripHeading lines[i]), none, none, none⟩
          (pushBlock acc (mkBlock ln ⟨some (stripHeading lines[i]), none, none, none⟩
            (absorb (stop_tags .ADDENDUM) (lines.drop (i + 1)) lines[i]).1)) := by
  simp only [walk, dif_pos h, ht]

theorem walk_part {ln : Option String} {lines : List String} {fuel i : Nat} {ctx : Ctx}
    {acc : List Block} (h : i < lines.length)
    (ht : get_line_type lines[i] = .PART) :
    walk ln lines (fuel + 1) i ctx acc
      = walk ln lines fuel (i + 1) ⟨some (stripHeading lines[i]), none, none, none⟩
          (pushBlock acc (mkBlock ln ⟨some (stripHeading lines[i]), none, none, none⟩ "")) := by
  simp only [walk, dif_pos h, ht]

theorem walk_chapter {ln : Option String} {lines : List String} {fuel i : Nat} {ctx : Ctx}
    {acc : List Block} (h : i < lines.length)
    (ht : get_line_type lines[i] = .CHAPTER) :
    walk ln lines (fuel + 1) i ctx acc
      = walk ln lines fuel (i + 1)
          ⟨if ctx.part = some "metadata" then none else ctx.part,
            some (stripHeading lines[i]), none, none⟩
          (pushBlock acc (mkBlock ln
            ⟨if ctx.part = some "metadata" then none else ctx.part,
              some (stripHeading lines[i]), none, none⟩ "")) := by
  simp only [walk, dif_pos h, ht]

theorem walk_sign {ln : Option String} {lines : List String} {fuel i : Nat} {ctx : Ctx}
    {acc : List Block} (h : i < lines.length)
    (ht : get_line_type lines[i] = .SIGN) :
    walk ln lines (fuel + 1) i ctx acc
      = walk ln lines fuel (i + 1)
          ⟨if ctx.part = some "metadata" then none else ctx.part,
            ctx.chapter, some (stripHeading lines[i]), none⟩
          (pushBlock acc (mkBlock ln
            ⟨if ctx.part = some "metadata" then none else ctx.part,
              ctx.chapter, some (stripHeading lines[i]), none⟩ "")) := by
  simp only [walk, dif_pos h, ht]

theorem walk_section_ok {ln : Option String} {lines : List String} {fuel i : Nat} {ctx : Ctx}
    {acc : List Block} {num txt : String} (h : i < lines.length)
    (ht : get_line_type lines[i] = .SECTION)
    (hp : get_section_properties lines[i] = .ok (num, txt)) :
    walk ln lines (fuel + 1) i ctx acc
      = walk ln lines fuel (i + 1 + (absorb (stop_tags .SECTION) (lines.drop (i + 1)) txt).2)
          ⟨if ctx.part = some "metadata" then none else ctx.part,
            ctx.chapter, ctx.sign, some num⟩
          (pushBlock acc (mkBlock ln
            ⟨if ctx.part = some "metadata" then none else ctx.part,
              ctx.chapter, ctx.sign, some num⟩
            (absorb (stop_tags .SECTION) (lines.drop (i + 1)) txt).1)) := by
  simp only [walk, dif_pos h, ht, hp]

theorem walk_section_err {ln : Option String} {lines : List String} {fuel i : Nat} {ctx : Ctx}
    {acc : List Block} {e : PError} (h : i < lines.length)
    (ht : get_line_type lines[i] = .SECTION)
    (hp : get_section_properties lines[i] = .error e) :
    walk ln lines (fuel + 1) i ctx acc
      = some (.error (.sectionParsing
          ("Failed to parse section at line " ++ toString i ++ ": " ++ errMsg e))) := by
  simp only [walk, dif_pos h, ht, hp]

/-! ### Termination of the walk -/

theorem walk_fuel_sufficient (ln : Option String) (lines : List String) :
    ∀ (fuel i : Nat) (ctx : Ctx) (acc : List Block),
      lines.length - i < fuel → (walk ln lines fuel i ctx acc).isSome = true := by
  intro fuel
  induction fuel with
  | zero => intro i ctx acc h; omega
  | succ fuel ih =>
    intro i ctx acc h
    by_cases hi : i < lines.length
    · have hlt : lines.length - i < fuel + 1 := h
      cases ht : get_line_type lines[i] with
      | METADATA =>
        rw [walk_metadata hi ht]
        exact ih _ _ _ (by omega)
      | ADDENDUM =>
        rw [walk_addendum hi ht]
        exact ih _ _ _ (by omega)
      | PART =>
        rw [walk_part hi ht]
        exact ih _ _ _ (by omega)
      | CHAPTER =>
        rw [walk_chapter hi ht]
        exact ih _ _ _ (by omega)
      | SIGN =>
        rw [walk_sign hi ht]
        exact ih _ _ _ (by omega)
      | SECTION =>
        cases hp : get_section_properties lines[i] with
        | error e => rw [walk_section_err hi ht hp]; rfl
        | ok pr =>
          rw [walk_section_ok hi ht (by rw [hp])]
          exact ih _ _ _ (by omega)
      | REGULAR =>
        rw [walk_regular hi ht]
        exact ih _ _ _ (by omega)
      | LAW_NAME =>
        have hw : walk ln lines (fuel + 1) i ctx acc
            = walk ln lines fuel (i + 1) ctx (pushBlock acc (mkBlock ln ctx lines[i])) := by
          simp only [walk, dif_pos hi, ht]
        rw [hw]
        exact ih _ _ _ (by omega)
    · rw [walk_done hi]; rfl

/-- Any error returned by the walk is a `sectionParsing` error. -/
theorem walk_error_shape (ln : Option String) (lines : List String) :
    ∀ (fuel i : Nat) (ctx : Ctx) (acc : List Block) (e : PError),
      walk ln lines fuel i ctx acc = some (.error e) → ∃ m, e = .sectionParsing m := by
  intro fuel
  induction fuel with
  | zero => intro i ctx acc e h; simp [walk] at h
  | succ fuel ih =>
    intro i ctx acc e h
    by_cases hi : i < lines.length
    · cases ht : get_line_type lines[i] with
      | METADATA => rw [walk_metadata hi ht] at h; exact ih _ _ _ _ h
      | ADDENDUM => rw [walk_addendum hi ht] at h; exact ih _ _ _ _ h
      | PART => rw [walk_part hi ht] at h; exact ih _ _ _ _ h
      | CHAPTER => rw [walk_chapter hi ht] at h; exact ih _ _ _ _ h
      | SIGN => rw [walk_sign hi ht] at h; exact ih _ _ _ _ h
      | SECTION =>
        cases hp : get_section_properties lines[i] with
        | error e2 =>
          rw [walk_section_err hi ht hp] at h
          have he : e = .sectionParsing
              ("Failed to parse section at line " ++ toString i ++ ": " ++ errMsg e2) := by
            exact (by simpa using h : _ = e).symm
          exact ⟨_, he⟩
        | ok pr =>
          rw [walk_section_ok hi ht (by rw [hp])] at h
          exact ih _ _ _ _ h
      | REGULAR => rw [walk_regular hi ht] at h; exact ih _ _ _ _ h
      | LAW_NAME =>
        have hw : walk ln lines (fuel + 1) i ctx acc
            = walk ln lines fuel (i + 1) ctx (pushBlock acc (mkBlock ln ctx lines[i])) := by
          simp only [walk, dif_pos hi, ht]
        rw [hw] at h
        exact ih _ _ _ _ h
    · rw [walk_done hi] at h
      simp at h

/-! ### Helpers for the classifier claims -/

/-- A successful heading match means the line starts with `=`. -/
theorem headingGroup2_head {cs : List Char} {r : List Char}
    (h : headingGroup2 cs = some r) : ∃ rest, cs = '=' :: rest := by
  cases cs with
  | nil => simp [headingGroup2] at h
  | cons c0 rest =>
    refine ⟨rest, ?_⟩
    by_cases hc : c0 = '='
    · rw [hc]
    · simp only [headingGroup2, if_neg hc] at h
      exact absurd h (by simp)

/-- A line matched by the heading pattern is not blank. -/
theorem headingGroup2_not_blank {line : String} {r : List Char}
    (h : headingGroup2 line.data = some r) : pyStripList line.data ≠ [] := by
  intro hnil
  rw [pyStripList_eq_nil_iff] at hnil
  rcases headingGroup2_head h with ⟨rest, hr⟩
  have hm : '=' ∈ line.data := by rw [hr]; exact List.mem_cons_self _ _
  have h2 := hnil '=' hm
  rw [show isWS '=' = false from rfl] at h2
  exact absurd h2 (by simp)

/-- The metadata/section/regular fallback of `get_line_type` yields
`SECTION` only when the section pattern matches. -/
theorem fallback_eq_section {line : String}
    (h : (if isMetadataLine line then LineType.METADATA
          else if (sectionMatch line.data).isSome then LineType.SECTION
          else LineType.REGULAR) = LineType.SECTION) :
    (sectionMatch line.data).isSome = true := by
  by_cases hm : isMetadataLine line
  · rw [if_pos hm] at h; exact absurd h (by decide)
  · rw [if_neg hm] at h
    by_cases hs : (sectionMatch line.data).isSome
    · exact hs
    · rw [if_neg hs] at h; exact absurd h (by decide)

/-! ### Claim theorems: classifier and extractor -/

/-- C3 counterexample: the line `חלק א` matches the claim's heading
pattern (its leading `=`-run being empty) and contains the Part keyword,
yet `classify` returns `Regular` — the code requires at least one
leading `=`. -/
theorem claim3_counterexample :
    get_line_type "חלק א" = LineType.REGULAR
    ∧ firstKeyword (pyStripCharsList stripSetChars "חלק א".data) = some LineType.PART := by
  constructor
  · rfl
  · rfl

/-- C3 (amended: the heading pattern requires a nonempty leading run of
`=`): for every line matched by the heading regex whose stripped title
contains a heading keyword, `get_line_type` returns the first matching
keyword in priority order, which is one of the four heading types. -/
theorem claim3_heading_classification :
    ∀ (line : String) (g2 : List Char) (t : LineType),
      headingGroup2 line.data = some g2 →
      firstKeyword (pyStripCharsList stripSetChars g2) = some t →
      get_line_type line = t ∧ t ∈ headingKeywords := by
  intro line g2 t hg hk
  refine ⟨?_, List.mem_of_find?_eq_some hk⟩
  unfold get_line_type
  rw [if_neg (headingGroup2_not_blank hg)]
  simp only [hg, hk]

/-- C3 witness: a concrete Part heading. -/
theorem claim3_witness :
    get_line_type "=חלק=" = LineType.PART ∧ LineType.PART ∈ headingKeywords :=
  claim3_heading_classification "=חלק=" ['ח', 'ל', 'ק'] LineType.PART (by rfl) (by rfl)

/-- C4 counterexample: the stop set of `Metadata` does not contain
`Metadata` itself, contradicting the claimed invariant. -/
theorem claim4_counterexample : ¬ (LineType.METADATA ∈ stop_tags LineType.METADATA) := by
  decide

/-- The structural heading levels, broadest first. -/
def structuralLevels : List LineType :=
  [.ADDENDUM, .PART, .CHAPTER, .SIGN, .SECTION]

/-- Broadness rank of a structural level (0 = broadest). -/
def rank : LineType → Nat
  | .ADDENDUM => 0
  | .PART => 1
  | .CHAPTER => 2
  | .SIGN => 3
  | .SECTION => 4
  | _ => 5

/-- C4 (amended: the self-containment invariant holds for the five
structural levels but not for `Metadata`, whose stop set is exactly the
five structural levels): the table equals the source listing; every
structural level's stop set contains itself and every broader-or-equal
structural level; `Metadata` is absent from its own stop set. -/
theorem claim4_stop_table :
    stop_tags .ADDENDUM = [.ADDENDUM, .PART, .METADATA]
    ∧ stop_tags .PART = [.PART, .ADDENDUM, .METADATA]
    ∧ stop_tags .CHAPTER = [.CHAPTER, .PART, .ADDENDUM, .METADATA]
    ∧ stop_tags .SIGN = [.SIGN, .CHAPTER, .PART, .ADDENDUM, .METADATA]
    ∧ stop_tags .SECTION = [.SECTION, .SIGN, .CHAPTER, .PART, .ADDENDUM, .METADATA]
    ∧ stop_tags .METADATA = [.SECTION, .SIGN, .CHAPTER, .PART, .ADDENDUM]
    ∧ (structuralLevels.all fun L => structuralLevels.all fun M =>
        !(decide (rank M ≤ rank L)) || decide (M ∈ stop_tags L)) = true
    ∧ ¬ (LineType.METADATA ∈ stop_tags LineType.METADATA) := by
  decide

/-- C6: the two extraction examples return the trimmed number and text;
every line the section pattern does not match is rejected with a
`ValueError` (`NotASection`); returned components are
whitespace-trimmed (stripping them again changes nothing). -/
theorem claim6_extract_section :
    get_section_properties "@ 1. Text" = .ok ("1", "Text")
    ∧ get_section_properties "@ 15א. X" = .ok ("15א", "X")
    ∧ (∀ line : String, sectionMatch line.data = none →
        ∃ m, get_section_properties line = .error (.valueError m))
    ∧ (∀ (line n t : String), get_section_properties line = .ok (n, t) →
        pyStrip n = n ∧ pyStrip t = t) := by
  refine ⟨by rfl, by rfl, ?_, ?_⟩
  · intro line hm
    unfold get_section_properties
    by_cases hb : pyStripList line.data = []
    · rw [if_pos hb]; exact ⟨_, rfl⟩
    · rw [if_neg hb, hm]; exact ⟨_, rfl⟩
  · intro line n t h
    unfold get_section_properties at h
    by_cases hb : pyStripList line.data = []
    · rw [if_pos hb] at h; exact absurd h (by simp)
    · rw [if_neg hb] at h
      cases hm : sectionMatch line.data with
      | none => rw [hm] at h; exact absurd h (by simp)
      | some pr =>
        rcases pr with ⟨a, b⟩
        rw [hm] at h
        simp only [Except.ok.injEq, Prod.mk.injEq] at h
        rcases h with ⟨hn, ht⟩
        constructor
        · rw [← hn]
          show (⟨pyStripList (String.data ⟨pyStripList a⟩)⟩ : String) = _
          rw [show String.data ⟨pyStripList a⟩ = pyStripList a from rfl, pyStripList_idem]
        · rw [← ht]
          show (⟨pyStripList (String.data ⟨pyStripList b⟩)⟩ : String) = _
          rw [show String.data ⟨pyStripList b⟩ = pyStripList b from rfl, pyStripList_idem]

/-- C6 witness: the rejection branch and the trimmedness at concrete
inputs. -/
theorem claim6_witness :
    (∃ m, get_section_properties "not a section" = .error (.valueError m))
    ∧ (pyStrip "1" = "1" ∧ pyStrip "Text" = "Text") :=
  ⟨claim6_extract_section.2.2.1 "not a section" (by rfl),
   claim6_extract_section.2.2.2 "@ 1. Text" "1" "Text" (by rfl)⟩

/-- C9: whenever the classifier returns `SECTION`, the extractor
succeeds on the same line (its error branch is unreachable), because
both are driven by the same section pattern. -/
theorem claim9_section_extractable :
    ∀ line : String, get_line_type line = LineType.SECTION →
      ∃ pr, get_section_properties line = .ok pr := by
  intro line h
  unfold get_line_type at h
  by_cases hb : pyStripList line.data = []
  · rw [if_pos hb] at h; exact absurd h (by decide)
  · rw [if_neg hb] at h
    have hsec : (sectionMatch line.data).isSome = true := by
      cases hg : headingGroup2 line.data with
      | some g2 =>
        rw [hg] at h
        cases hk : firstKeyword (pyStripCharsList stripSetChars g2) with
        | some t =>
          simp only [hk] at h
          have hmem := List.mem_of_find?_eq_some hk
          rw [h] at hmem
          exact absurd hmem (by decide)
        | none =>
          simp only [hk] at h
          exact fallback_eq_section h
      | none =>
        rw [hg] at h
        exact fallback_eq_section h
    rcases Option.isSome_iff_exists.1 hsec with ⟨pr, hpr⟩
    rcases pr with ⟨a, b⟩
    unfold get_section_properties
    rw [if_neg hb, hpr]
    exact ⟨_, rfl⟩

/-- C9 witness: a concrete section line. -/
theorem claim9_witness : ∃ pr, get_section_properties "@ 1. a" = .ok pr :=
  claim9_section_extractable "@ 1. a" (by rfl)

/-! ### Claim theorems: aggregator scenarios -/

/-- C1 counterexample: the end-to-end document yields three blocks, not
two — the law-name tag line itself is emitted as a metadata block. -/
theorem claim1_counterexample :
    (parse "<שם>Test\n@ 1. First.\n@ 2. Second.").toOption.map List.length = some 3 := by
  rfl

/-- C1 (amended: the document yields three blocks — a metadata block for
the law-name line with the `metadata` part sentinel, then the two
claimed section blocks with part/chapter/sign unset). -/
theorem claim1_three_blocks :
    parse "<שם>Test\n@ 1. First.\n@ 2. Second."
      = .ok [⟨some "Test", some "metadata", none, none, none, "<שם>Test"⟩,
             ⟨some "Test", none, none, none, some "1", "First."⟩,
             ⟨some "Test", none, none, none, some "2", "Second."⟩] := by
  rfl

/-- C2 counterexample: a document of blank lines only is whitespace-only
and fails with `EmptyDocument` (`"Document cannot be empty"`), not
`NoContent`. -/
theorem claim2_counterexample :
    parse "\n \n" = .error (.valueError "Document cannot be empty") := by
  rfl

/-- C2 (amended: a document containing only blank lines is a
whitespace-only document, so it fails with `EmptyDocument`; `segment`
fails with `EmptyDocument` exactly when the document contains only
whitespace). -/
theorem claim2_empty_document :
    ∀ doc : String,
      parse doc = .error (.valueError "Document cannot be empty")
        ↔ ∀ c ∈ doc.data, isWS c = true := by
  intro doc
  constructor
  · intro h
    by_cases hb : pyStripList doc.data = []
    · exact (pyStripList_eq_nil_iff doc.data).1 hb
    · exfalso
      unfold parse at h
      rw [if_neg hb] at h
      cases hw : walk (findLawName doc.data) (splitlines doc)
          ((splitlines doc).length + 1) 0 ⟨none, none, none, none⟩ [] with
      | none => rw [hw] at h; simp at h
      | some r =>
        rw [hw] at h
        cases r with
        | ok res =>
          by_cases hres : res.isEmpty
          · simp [hres] at h
          · simp [hres] at h
        | error e =>
          rcases walk_error_shape _ _ _ _ _ _ _ hw with ⟨m, hm⟩
          subst hm
          simp at h
  · intro h
    unfold parse
    rw [if_pos ((pyStripList_eq_nil_iff doc.data).2 h)]

/-- C2 witness: a single space is whitespace-only. -/
theorem claim2_witness : parse " " = .error (.valueError "Document cannot be empty") :=
  (claim2_empty_document " ").2 (by decide)

/-- C10: the walk terminates — from any cursor position `i`, fuel
`lines.length - i + 1` (one outer iteration per remaining line) is
enough, because every branch advances the cursor by at least one; in
particular `parse` never reaches its fuel-exhaustion branch. -/
theorem claim10_terminates :
    (∀ (ln : Option String) (lines : List String) (fuel i : Nat) (ctx : Ctx)
        (acc : List Block), lines.length - i < fuel →
        (walk ln lines fuel i ctx acc).isSome = true)
    ∧ ∀ doc : String, parse doc ≠ .error (.parserError "fuel exhausted") := by
  constructor
  · exact fun ln lines => walk_fuel_sufficient ln lines
  · intro doc h
    unfold parse at h
    by_cases hb : pyStripList doc.data = []
    · rw [if_pos hb] at h; exact absurd h (by simp)
    · rw [if_neg hb] at h
      cases hw : walk (findLawName doc.data) (splitlines doc)
          ((splitlines doc).length + 1) 0 ⟨none, none, none, none⟩ [] with
      | none =>
        have hs := walk_fuel_sufficient (findLawName doc.data) (splitlines doc)
          ((splitlines doc).length + 1) 0 ⟨none, none, none, none⟩ [] (by omega)
        rw [hw] at hs
        exact absurd hs (by simp)
      | some r =>
        rw [hw] at h
        cases r with
        | ok res =>
          by_cases hres : res.isEmpty
          · simp [hres] at h
          · simp [hres] at h
        | error e =>
          rcases walk_error_shape _ _ _ _ _ _ _ hw with ⟨m, hm⟩
          subst hm
          simp at h

/-! ### Batch driver -/

/-- The per-document failure record of a batch, in input order:
`(index, message)` for every document on which `parse` fails. -/
def batchFailures (docs : List String) : List (Nat × String) :=
  (docs.enum).filterMap (fun p =>
    match parse p.2 with
    | .error e => some (p.1, errMsg e)
    | .ok _ => none)

/-- `parseManyAux` collects exactly the successes (in order) and the
indexed failures. -/
theorem parseManyAux_spec (docs : List String) :
    ∀ i, parseManyAux docs i
      = (docs.filterMap (fun d => (parse d).toOption),
         (List.enumFrom i docs).filterMap (fun p =>
           match parse p.2 with
           | .error e => some (p.1, errMsg e)
           | .ok _ => none)) := by
  induction docs with
  | nil => intro i; rfl
  | cons d rest ih =>
    intro i
    simp only [parseManyAux, ih (i + 1), List.filterMap_cons, List.enumFrom_cons]
    cases hp : parse d with
    | ok res => simp [hp, Except.toOption]
    | error e => simp [hp, Except.toOption]

/-- Every document lands in exactly one of the two output lists of
`parseManyAux`. -/
theorem parseManyAux_length (docs : List String) :
    ∀ i, (parseManyAux docs i).1.length + (parseManyAux docs i).2.length
      = docs.length := by
  induction docs with
  | nil => intro i; rfl
  | cons d rest ih =>
    intro i
    simp only [parseManyAux]
    cases hp : parse d with
    | ok res => simpa using by have := ih (i + 1); omega
    | error e => simpa using by have := ih (i + 1); omega

/-- C8: `segment_many []` succeeds with `[]`; every success is the
in-order list of per-document successes with failing documents skipped;
the batch fails (with `BatchFailure`) exactly when the input is nonempty
and every document fails; and the failure value carries the first
(at most 3) indexed per-document errors. -/
theorem claim8_parse_many :
    parse_many [] = .ok []
    ∧ (∀ (docs : List String) (res : List (List Block)), parse_many docs = .ok res →
        res = docs.filterMap (fun d => (parse d).toOption))
    ∧ (∀ docs : List String,
        (∃ e, parse_many docs = .error e)
          ↔ (docs ≠ [] ∧ ∀ d ∈ docs, ∃ e2, parse d = .error e2))
    ∧ (∀ (docs : List String) (e : PError), parse_many docs = .error e →
        e = .batchFailure ((batchFailures docs).take 3)
        ∧ ((batchFailures docs).take 3).length ≤ 3) := by
  refine ⟨rfl, ?_, ?_, ?_⟩
  · intro docs res h
    unfold parse_many at h
    by_cases hd : docs.isEmpty
    · rw [if_pos hd] at h
      rw [List.isEmpty_iff.1 hd]
      simpa using h.symm
    · rw [if_neg hd] at h
      by_cases hc : (parseManyAux docs 0).1.isEmpty && !(parseManyAux docs 0).2.isEmpty
      · rw [if_pos hc] at h; exact absurd h (by simp)
      · rw [if_neg hc] at h
        have h1 : (parseManyAux docs 0).1 = res := by simpa using h
        rw [← h1, parseManyAux_spec docs 0]
  · intro docs
    constructor
    · rintro ⟨e, he⟩
      unfold parse_many at he
      by_cases hd : docs.isEmpty
      · rw [if_pos hd] at he; exact absurd he (by simp)
      · refine ⟨by simpa using hd, ?_⟩
        by_cases hc : (parseManyAux docs 0).1.isEmpty && !(parseManyAux docs 0).2.isEmpty
        · intro d hdm
          have h1 : (parseManyAux docs 0).1 = [] := by
            rcases Bool.and_eq_true_iff.1 hc with ⟨h1, _⟩
            exact List.isEmpty_iff.1 h1
          rw [parseManyAux_spec docs 0] at h1
          have h2 := List.filterMap_eq_nil_iff.1 h1 d hdm
          cases hp : parse d with
          | ok r => rw [hp] at h2; exact absurd h2 (by simp [Except.toOption])
          | error e2 => exact ⟨e2, rfl⟩
        · rw [if_neg hd, if_neg hc] at he; exact absurd he (by simp)
    · rintro ⟨hne, hall⟩
      have h1 : (parseManyAux docs 0).1 = [] := by
        rw [parseManyAux_spec docs 0]
        refine List.filterMap_eq_nil_iff.2 ?_
        intro d hdm
        rcases hall d hdm with ⟨e2, he2⟩
        rw [he2]
        rfl
      have h2 : (parseManyAux docs 0).2 ≠ [] := by
        intro h2
        have hlen := parseManyAux_length docs 0
        rw [h1, h2] at hlen
        simp at hlen
        cases docs with
        | nil => exact hne rfl
        | cons a b => simp at hlen
      refine ⟨.batchFailure ((parseManyAux docs 0).2.take 3), ?_⟩
      unfold parse_many
      rw [if_neg (by simpa using hne), if_pos
        (by rw [Bool.and_eq_true_iff]
            exact ⟨List.isEmpty_iff.2 h1, by simpa using h2⟩)]
  · intro docs e he
    unfold parse_many at he
    by_cases hd : docs.isEmpty
    · rw [if_pos hd] at he; exact absurd he (by simp)
    · rw [if_neg hd] at he
      by_cases hc : (parseManyAux docs 0).1.isEmpty && !(parseManyAux docs 0).2.isEmpty
      · rw [if_pos hc] at he
        have heq : e = .batchFailure ((parseManyAux docs 0).2.take 3) := by
          simpa using he.symm
        have hfb : (parseManyAux docs 0).2 = batchFailures docs := by
          rw [parseManyAux_spec docs 0]
          rfl
        refine ⟨by rw [heq, hfb], ?_⟩
        have := List.length_take 3 (batchFailures docs)
        omega
      · rw [if_neg hc] at he; exact absurd he (by simp)

/-- C8 witness: a batch with one failing and one succeeding document,
and an all-failing batch. -/
theorem claim8_witness :
    ((["@ 1. a", ""].filterMap (fun d => (parse d).toOption)).length = 1)
    ∧ (∃ e, parse_many ["", " "] = .error e) := by
  constructor
  · have h := claim8_parse_many.2.1 ["@ 1. a", ""]
      (["@ 1. a", ""].filterMap (fun d => (parse d).toOption)) (by rfl)
    rw [← h]
    rfl
  · exact (claim8_parse_many.2.2.1 ["", " "]).2
      ⟨by simp, by
        intro d hd
        rcases List.mem_pair.1 hd with h | h <;> rw [h] <;> exact ⟨_, rfl⟩⟩

/-- C10 witness: the fuel bound at a concrete input. -/
theorem claim10_witness :
    (walk none ["a"] 2 0 ⟨none, none, none, none⟩ []).isSome = true :=
  claim10_terminates.1 none ["a"] 2 0 ⟨none, none, none, none⟩ [] (by decide)

/-! ### Line-break invariants: lines produced by `splitlines` contain no
line-break characters, and block texts inherit this. -/

/-- A char on which `splitlines` breaks. -/
def isLineBreak (c : Char) : Bool :=
  c == '\n' || c == '\r' || c == '\x0b' || c == '\x0c'

theorem splitlinesAux_all_noNL (cs : List Char) :
    ∀ (acc : List Char) (skip : Bool), (∀ c ∈ acc, isLineBreak c = false) →
      ∀ l ∈ splitlinesAux cs acc skip, ∀ c ∈ l, isLineBreak c = false := by
  induction cs with
  | nil =>
    intro acc skip hacc l hl c hc
    unfold splitlinesAux at hl
    by_cases he : acc.isEmpty
    · rw [if_pos he] at hl; exact absurd hl (by simp)
    · rw [if_neg he] at hl
      have : l = acc.reverse := by simpa using hl
      rw [this] at hc
      exact hacc c (List.mem_reverse.1 hc)
  | cons c0 rest ih =>
    intro acc skip hacc l hl c hc
    unfold splitlinesAux at hl
    by_cases h1 : skip && c0 == '\n'
    · rw [if_pos h1] at hl
      exact ih acc false hacc l hl c hc
    · rw [if_neg h1] at hl
      by_cases h2 : c0 == '\r'
      · rw [if_pos h2] at hl
        rcases List.mem_cons.1 hl with hl1 | hl2
        · rw [hl1] at hc; exact hacc c (List.mem_reverse.1 hc)
        · exact ih [] true (by simp) l hl2 c hc
      · rw [if_neg h2] at hl
        by_cases h3 : c0 == '\n' || c0 == '\x0b' || c0 == '\x0c'
        · rw [if_pos h3] at hl
          rcases List.mem_cons.1 hl with hl1 | hl2
          · rw [hl1] at hc; exact hacc c (List.mem_reverse.1 hc)
          · exact ih [] false (by simp) l hl2 c hc
        · rw [if_neg h3] at hl
          refine ih (c0 :: acc) false ?_ l hl c hc
          intro d hd
          rcases List.mem_cons.1 hd with hd1 | hd2
          · rw [hd1]
            simp only [isLineBreak]
            simp only [Bool.or_eq_true, beq_iff_eq] at h2 h3 ⊢
            push_neg at h3
            simp [h2, h3.1.1, h3.1.2, h3.2]
          · exact hacc d hd2

theorem splitlinesAux_noNL_eq (cs : List Char) :
    ∀ (acc : List Char) (skip : Bool), (∀ c ∈ cs, isLineBreak c = false) →
      splitlinesAux cs acc skip
        = if (acc.reverse ++ cs).isEmpty then [] else [acc.reverse ++ cs] := by
  induction cs with
  | nil => intro acc skip _; simp [splitlinesAux]
  | cons c0 rest ih =>
    intro acc skip h
    have hc0 : isLineBreak c0 = false := h c0 (List.mem_cons_self _ _)
    have hrest : ∀ c ∈ rest, isLineBreak c = false :=
      fun c hc => h c (List.mem_cons_of_mem _ hc)
    simp only [isLineBreak, Bool.or_eq_false_iff] at hc0
    unfold splitlinesAux
    rw [if_neg (by simp [hc0.1.1.1]), if_neg (by simp [hc0.1.1.2]),
      if_neg (by simp [hc0.1.1.1, hc0.1.2, hc0.2]), ih (c0 :: acc) false hrest]
    rw [if_neg (by simp), if_neg (by simp)]
    simp

theorem splitlines_lines_noNL (s : String) :
    ∀ l ∈ splitlines s, ∀ c ∈ l.data, isLineBreak c = false := by
  intro l hl c hc
  unfold splitlines at hl
  rcases List.mem_map.1 hl with ⟨l0, hl0, hml⟩
  have h0 := splitlinesAux_all_noNL s.data [] false (by simp) l0 hl0 c
  rw [← hml] at hc
  exact h0 hc

theorem splitlines_single (l : String) (hn : ∀ c ∈ l.data, isLineBreak c = false)
    (hne : l.data ≠ []) : splitlines l = [l] := by
  unfold splitlines
  rw [splitlinesAux_noNL_eq l.data [] false hn]
  rw [if_neg (by simpa using hne)]
  simp

theorem absorb_noNL (stop : List LineType) (rest : List String) :
    ∀ chunk : String, (∀ l ∈ rest, ∀ c ∈ l.data, isLineBreak c = false) →
      (∀ c ∈ chunk.data, isLineBreak c = false) →
      ∀ c ∈ (absorb stop rest chunk).1.data, isLineBreak c = false := by
  induction rest with
  | nil => intro chunk _ hchunk c hc; exact hchunk c hc
  | cons l rest2 ih =>
    intro chunk hrest hchunk c hc
    unfold absorb at hc
    by_cases hs : get_line_type l ∈ stop
    · rw [if_pos hs] at hc; exact hchunk c hc
    · rw [if_neg hs] at hc
      refine ih (chunk ++ l) (fun d hd => hrest d (List.mem_cons_of_mem _ hd)) ?_ c hc
      intro d hd
      rw [String.data_append] at hd
      rcases List.mem_append.1 hd with hd1 | hd2
      · exact hchunk d hd1
      · exact hrest l (List.mem_cons_self _ _) d hd2

/-- Every char of the matched section text comes from the line itself. -/
theorem sectionMatch_text_subset {cs : List Char} {a b : List Char}
    (h : sectionMatch cs = some (a, b)) : ∀ c ∈ b, c ∈ cs := by
  intro c hc
  unfold sectionMatch at h
  cases hd : cs.dropWhile isWS with
  | nil => rw [hd] at h; exact absurd h (by simp [sectionMatchCore])
  | cons c0 t2 =>
    rw [hd] at h
    simp only [sectionMatchCore] at h
    by_cases h0 : c0 = '@'
    · rw [if_pos h0] at h
      split at h
      · split at h
        · rename_i j hj h1
          simp only [Option.some.injEq, Prod.mk.injEq] at h
          have hb : b = ((t2.dropWhile isWS).drop (j + 1)).dropWhile isWS := h.2.symm
          rw [hb] at hc
          have hc2 : c ∈ (t2.dropWhile isWS).drop (j + 1) :=
            (List.dropWhile_sublist isWS).mem hc
          have hc3 : c ∈ t2.dropWhile isWS := List.mem_of_mem_drop hc2
          have hc4 : c ∈ t2 := (List.dropWhile_sublist isWS).mem hc3
          have hc5 : c ∈ cs.dropWhile isWS := by
            rw [hd]; exact List.mem_cons_of_mem _ hc4
          exact (List.dropWhile_sublist isWS).mem hc5
        · exact absurd h (by simp)
      · exact absurd h (by simp)
    · rw [if_neg h0] at h; exact absurd h (by simp)

/-- Every char of the extracted section text comes from the line. -/
theorem get_section_properties_text {line n t : String}
    (h : get_section_properties line = .ok (n, t)) : ∀ c ∈ t.data, c ∈ line.data := by
  intro c hc
  unfold get_section_properties at h
  by_cases hb : pyStripList line.data = []
  · rw [if_pos hb] at h; exact absurd h (by simp)
  · rw [if_neg hb] at h
    cases hm : sectionMatch line.data with
    | none => rw [hm] at h; exact absurd h (by simp)
    | some pr =>
      rcases pr with ⟨a, b⟩
      rw [hm] at h
      simp only [Except.ok.injEq, Prod.mk.injEq] at h
      have ht : t = (⟨pyStripList b⟩ : String) := h.2.symm
      rw [ht] at hc
      exact sectionMatch_text_subset hm c (mem_pyStripList hc)

/-! ### Output-block invariants of the walk -/

theorem walk_lawname {ln : Option String} {lines : List String} {fuel i : Nat} {ctx : Ctx}
    {acc : List Block} (h : i < lines.length)
    (ht : get_line_type lines[i] = .LAW_NAME) :
    walk ln lines (fuel + 1) i ctx acc
      = walk ln lines fuel (i + 1) ctx (pushBlock acc (mkBlock ln ctx lines[i])) := by
  simp only [walk, dif_pos h, ht]

theorem pushBlock_mem {acc : List Block} {blk b : Block} (h : b ∈ pushBlock acc blk) :
    b ∈ acc ∨ (b = blk ∧ pyStripList blk.text.data ≠ []) := by
  unfold pushBlock at h
  by_cases hs : pyStripList blk.text.data = []
  · rw [if_pos hs] at h; exact Or.inl h
  · rw [if_neg hs] at h
    rcases List.mem_append.1 h with h1 | h2
    · exact Or.inl h1
    · exact Or.inr ⟨by simpa using h2, hs⟩

/-- Every block emitted by the walk has line-break-free, non-blank text. -/
def GoodBlock (b : Block) : Prop :=
  (∀ c ∈ b.text.data, isLineBreak c = false) ∧ pyStripList b.text.data ≠ []

theorem walk_blocks_good {ln : Option String} {lines : List String}
    (hl : ∀ l ∈ lines, ∀ c ∈ l.data, isLineBreak c = false) :
    ∀ (fuel i : Nat) (ctx : Ctx) (acc : List Block) (res : List Block),
      (∀ b ∈ acc, GoodBlock b) →
      walk ln lines fuel i ctx acc = some (.ok res) → ∀ b ∈ res, GoodBlock b := by
  intro fuel
  induction fuel with
  | zero => intro i ctx acc res hacc h; exact absurd h (by simp [walk])
  | succ fuel ih =>
    intro i ctx acc res hacc h
    by_cases hi : i < lines.length
    · have hline : ∀ c ∈ (lines[i]).data, isLineBreak c = false :=
        hl lines[i] (List.getElem_mem hi)
      have hdrop : ∀ l2 ∈ lines.drop (i + 1), ∀ c ∈ l2.data, isLineBreak c = false :=
        fun l2 h2 => hl l2 (List.mem_of_mem_drop h2)
      cases ht : get_line_type lines[i] with
      | METADATA =>
        rw [walk_metadata hi ht] at h
        refine ih _ _ _ _ ?_ h
        intro b hb
        rcases pushBlock_mem hb with h1 | ⟨h2, h3⟩
        · exact hacc b h1
        · rw [h2]
          exact ⟨absorb_noNL _ _ _ hdrop hline, h3⟩
      | ADDENDUM =>
        rw [walk_addendum hi ht] at h
        refine ih _ _ _ _ ?_ h
        intro b hb
        rcases pushBlock_mem hb with h1 | ⟨h2, h3⟩
        · exact hacc b h1
        · rw [h2]
          exact ⟨absorb_noNL _ _ _ hdrop hline, h3⟩
      | PART =>
        rw [walk_part hi ht] at h
        refine ih _ _ _ _ ?_ h
        intro b hb
        rcases pushBlock_mem hb with h1 | ⟨_, h3⟩
        · exact hacc b h1
        · exact absurd rfl h3
      | CHAPTER =>
        rw [walk_chapter hi ht] at h
        refine ih _ _ _ _ ?_ h
        intro b hb
        rcases pushBlock_mem hb with h1 | ⟨_, h3⟩
        · exact hacc b h1
        · exact absurd rfl h3
      | SIGN =>
        rw [walk_sign hi ht] at h
        refine ih _ _ _ _ ?_ h
        intro b hb
        rcases pushBlock_mem hb with h1 | ⟨_, h3⟩
        · exact hacc b h1
        · exact absurd rfl h3
      | SECTION =>
        cases hp : get_section_properties lines[i] with
        | error e => rw [walk_section_err hi ht hp] at h; exact absurd h (by simp)
        | ok pr =>
          rcases pr with ⟨num, txt⟩
          rw [walk_section_ok hi ht hp] at h
          refine ih _ _ _ _ ?_ h
          intro b hb
          rcases pushBlock_mem hb with h1 | ⟨h2, h3⟩
          · exact hacc b h1
          · rw [h2]
            have htxt : ∀ c ∈ txt.data, isLineBreak c = false :=
              fun c hc => hline c (get_section_properties_text hp c hc)
            exact ⟨absorb_noNL _ _ _ hdrop htxt, h3⟩
      | REGULAR =>
        rw [walk_regular hi ht] at h
        refine ih _ _ _ _ ?_ h
        intro b hb
        rcases pushBlock_mem hb with h1 | ⟨h2, h3⟩
        · exact hacc b h1
        · rw [h2]
          exact ⟨hline, h3⟩
      | LAW_NAME =>
        rw [walk_lawname hi ht] at h
        refine ih _ _ _ _ ?_ h
        intro b hb
        rcases pushBlock_mem hb with h1 | ⟨h2, h3⟩
        · exact hacc b h1
        · rw [h2]
          exact ⟨hline, h3⟩
    · rw [walk_done hi] at h
      have hres : acc = res := by simpa using h
      rw [← hres]
      exact hacc

/-- Inversion of a successful `parse`. -/
theorem parse_ok_inv {doc : String} {bs : List Block} (h : parse doc = .ok bs) :
    pyStripList doc.data ≠ []
    ∧ walk (findLawName doc.data) (splitlines doc) ((splitlines doc).length + 1) 0
        ⟨none, none, none, none⟩ [] = some (.ok bs) := by
  unfold parse at h
  by_cases hb : pyStripList doc.data = []
  · rw [if_pos hb] at h; exact absurd h (by simp)
  · refine ⟨hb, ?_⟩
    rw [if_neg hb] at h
    cases hw : walk (findLawName doc.data) (splitlines doc)
        ((splitlines doc).length + 1) 0 ⟨none, none, none, none⟩ [] with
    | none => rw [hw] at h; exact absurd h (by simp)
    | some r =>
      rw [hw] at h
      cases r with
      | error e => exact absurd h (by simp)
      | ok res =>
        by_cases hres : res.isEmpty
        · simp [hres] at h
        · have hbs : res = bs := by simpa [hres] using h
          rw [hbs]

/-- Re-parsing a single non-blank Regular line yields exactly one block
with empty context. -/
theorem parse_single_regular (l : String) (hnb : pyStripList l.data ≠ [])
    (hn : ∀ c ∈ l.data, isLineBreak c = false) (hr : get_line_type l = .REGULAR) :
    parse l = .ok [⟨findLawName l.data, none, none, none, none, l⟩] := by
  have hne : l.data ≠ [] := fun h0 => hnb (by rw [h0]; rfl)
  have hsplit : splitlines l = [l] := splitlines_single l hn hne
  unfold parse
  rw [if_neg hnb, hsplit]
  have hlen : ([l] : List String).length + 1 = 1 + 1 := by simp
  rw [hlen]
  have h0 : (0 : Nat) < ([l] : List String).length := by simp
  rw [walk_regular h0 (by simpa using hr)]
  rw [walk_done (by simp)]
  have hpb : pushBlock [] (mkBlock (findLawName l.data) ⟨none, none, none, none⟩
      (([l] : List String)[0])) = [⟨findLawName l.data, none, none, none, none, l⟩] := by
    unfold pushBlock mkBlock
    dsimp only [List.getElem_cons_zero]
    rw [if_neg hnb]
    simp
  rw [hpb]
  simp

/-- C5 counterexample: the single-metadata-line document yields one
block whose text is the whole document; re-segmenting that text (the
same document) yields a block whose `part` field is the `metadata`
sentinel, not unset. -/
theorem claim5_counterexample :
    parse "<מבוא>X" = .ok [⟨none, some "metadata", none, none, none, "<מבוא>X"⟩]
    ∧ (Block.mk none (some "metadata") none none none "<מבוא>X").part ≠ none := by
  exact ⟨by rfl, by simp⟩

/-- C5 (amended: restricted to blocks whose text classifies as Regular —
metadata, addendum and reassembled-section texts can re-classify and
carry context): for every block produced by `parse` whose text the
classifier calls `Regular`, re-segmenting the text as a one-line
document yields exactly one block with part/chapter/sign/section unset
and identical text. -/
theorem claim5_regular_roundtrip :
    ∀ (doc : String) (bs : List Block) (b : Block),
      parse doc = .ok bs → b ∈ bs → get_line_type b.text = .REGULAR →
      parse b.text = .ok [⟨findLawName b.text.data, none, none, none, none, b.text⟩] := by
  intro doc bs b hp hb hr
  rcases parse_ok_inv hp with ⟨_, hw⟩
  have hgood := walk_blocks_good (splitlines_lines_noNL doc)
    ((splitlines doc).length + 1) 0 ⟨none, none, none, none⟩ [] bs
    (by intro b2 hb2; exact absurd hb2 (List.not_mem_nil b2)) hw b hb
  exact parse_single_regular b.text hgood.2 hgood.1 hr

/-- C5 witness: a one-line Regular document round-trips. -/
theorem claim5_witness :
    parse "A" = .ok [⟨findLawName "A".data, none, none, none, none, "A"⟩] :=
  claim5_regular_roundtrip "A" [⟨none, none, none, none, none, "A"⟩]
    ⟨none, none, none, none, none, "A"⟩ (by rfl) (by simp) (by rfl)

/-! ### Claim C7: context propagation through Part, Chapter, Section -/

theorem absorb_stop {stop : List LineType} {l : String} {rest : List String}
    {chunk : String} (h : get_line_type l ∈ stop) :
    absorb stop (l :: rest) chunk = (chunk, 0) := by
  unfold absorb
  rw [if_pos h]

theorem absorb_nil {stop : List LineType} {chunk : String} :
    absorb stop [] chunk = (chunk, 0) := rfl

theorem pushBlock_blank {acc : List Block} {ln : Option String} {ctxv : Ctx} :
    pushBlock acc (mkBlock ln ctxv "") = acc := by
  have h : pyStripList (mkBlock ln ctxv "").text.data = [] := rfl
  unfold pushBlock
  rw [if_pos h]

theorem pushBlock_keep_mk {acc : List Block} {ln : Option String} {ctxv : Ctx}
    {chunk : String} (h : pyStripList chunk.data ≠ []) :
    pushBlock acc (mkBlock ln ctxv chunk) = acc ++ [mkBlock ln ctxv chunk] := by
  have h2 : pyStripList (mkBlock ln ctxv chunk).text.data ≠ [] := h
  unfold pushBlock
  rw [if_neg h2]

/-- C7: for every document whose lines are a Part heading, a Chapter
heading, a Section line, a second Chapter heading and a second Section
line (with non-blank section texts, and the part heading not literally
stripping to the `metadata` sentinel), the first section's block carries
both the part and chapter heading text; the second Chapter heading
clears sign/section while preserving the part, as the second section's
block shows. -/
theorem claim7_context_propagation :
    ∀ (doc p c s c2 s2 n1 t1 n2 t2 : String),
      splitlines doc = [p, c, s, c2, s2] →
      pyStripList doc.data ≠ [] →
      get_line_type p = .PART →
      get_line_type c = .CHAPTER →
      get_line_type s = .SECTION →
      get_line_type c2 = .CHAPTER →
      get_line_type s2 = .SECTION →
      get_section_properties s = .ok (n1, t1) →
      get_section_properties s2 = .ok (n2, t2) →
      pyStripList t1.data ≠ [] →
      pyStripList t2.data ≠ [] →
      stripHeading p ≠ "metadata" →
      parse doc = .ok
        [⟨findLawName doc.data, some (stripHeading p), some (stripHeading c),
          none, some n1, t1⟩,
         ⟨findLawName doc.data, some (stripHeading p), some (stripHeading c2),
          none, some n2, t2⟩] := by
  intro doc p c s c2 s2 n1 t1 n2 t2 hsplit hdoc hp hc hs hc2 hs2 hps hps2 ht1 ht2 hpm
  have hnm : ¬ (some (stripHeading p) = some "metadata") :=
    fun hx => hpm (Option.some.inj hx)
  have hmem1 : get_line_type c2 ∈ stop_tags LineType.SECTION := by
    rw [hc2]; decide
  have hA : (0 : Nat) < ([p, c, s, c2, s2] : List String).length := by simp
  have hB : 0 + 1 < ([p, c, s, c2, s2] : List String).length := by simp
  have hC : 0 + 1 + 1 < ([p, c, s, c2, s2] : List String).length := by simp
  have hD : 0 + 1 + 1 + 1 < ([p, c, s, c2, s2] : List String).length := by simp
  have hE : 0 + 1 + 1 + 1 + 1 < ([p, c, s, c2, s2] : List String).length := by simp
  have hF : ¬ (0 + 1 + 1 + 1 + 1 + 1 < ([p, c, s, c2, s2] : List String).length) := by
    simp
  unfold parse
  rw [if_neg hdoc, hsplit]
  have hlen : ([p, c, s, c2, s2] : List String).length + 1 = 5 + 1 := by simp
  rw [hlen]
  rw [walk_part hA hp]
  dsimp only [List.getElem_cons_zero, List.getElem_cons_succ, List.drop_succ_cons,
    List.drop_zero, Nat.add_zero]
  rw [pushBlock_blank]
  rw [walk_chapter hB hc]
  dsimp only [List.getElem_cons_zero, List.getElem_cons_succ, List.drop_succ_cons,
    List.drop_zero, Nat.add_zero]
  rw [if_neg hnm, pushBlock_blank]
  rw [walk_section_ok hC hs hps]
  dsimp only [List.getElem_cons_zero, List.getElem_cons_succ, List.drop_succ_cons,
    List.drop_zero, Nat.add_zero]
  rw [if_neg hnm, absorb_stop hmem1]
  dsimp only [Nat.add_zero]
  rw [pushBlock_keep_mk ht1]
  rw [walk_chapter hD hc2]
  dsimp only [List.getElem_cons_zero, List.getElem_cons_succ, List.drop_succ_cons,
    List.drop_zero, Nat.add_zero]
  rw [if_neg hnm, pushBlock_blank]
  rw [walk_section_ok hE hs2 hps2]
  dsimp only [List.getElem_cons_zero, List.getElem_cons_succ, List.drop_succ_cons,
    List.drop_zero, Nat.add_zero]
  rw [if_neg hnm, absorb_nil]
  dsimp only [Nat.add_zero]
  rw [pushBlock_keep_mk ht2]
  rw [walk_done hF]
  simp [mkBlock]

/-- C7 witness: a concrete Part, Chapter, Section, Chapter, Section
document. -/
theorem claim7_witness :
    parse "=חלק א=\n=פרק ב=\n@ 1. AA\n=פרק ג=\n@ 2. BB" = .ok
      [⟨findLawName "=חלק א=\n=פרק ב=\n@ 1. AA\n=פרק ג=\n@ 2. BB".data,
        some (stripHeading "=חלק א="), some (stripHeading "=פרק ב="),
        none, some "1", "AA"⟩,
       ⟨findLawName "=חלק א=\n=פרק ב=\n@ 1. AA\n=פרק ג=\n@ 2. BB".data,
        some (stripHeading "=חלק א="), some (stripHeading "=פרק ג="),
        none, some "2", "BB"⟩] :=
  claim7_context_propagation "=חלק א=\n=פרק ב=\n@ 1. AA\n=פרק ג=\n@ 2. BB"
    "=חלק א=" "=פרק ב=" "@ 1. AA" "=פרק ג=" "@ 2. BB" "1" "AA" "2" "BB"
    (by rfl) (by decide) (by rfl) (by rfl) (by rfl) (by rfl) (by rfl)
    (by rfl) (by rfl) (by decide) (by decide) (by decide)

end LawParse
